import Mathlib

/-!
Verification development for the `ChainMessagePassing` propagation engine of
`mp/smp.py`.  The engine is embedded shallowly: tensors are lists of rows of
integers, the two adjacency representations (explicit `[2, E]` long tensor and
`torch_sparse.SparseTensor`) are an inductive type, Python dictionaries are
association lists whose insertion prepends (so that a later insertion shadows
an earlier one, exactly like a dict overwrite), and every fallible source
operation returns `Except`.  The keyword-argument bag passed to `propagate`
is threaded through every function as explicit state, so that the fact that
the engine only ever reads it (`kwargs.get`) becomes a provable statement
about the embedding rather than an implicit convention.
-/

set_option autoImplicit false

namespace SMP

/-- Flow direction of message passing (`flow` attribute, smp.py lines 48, 57-58). -/
inductive Flow
  | source_to_target
  | target_to_source
  deriving DecidableEq

/-- With forward flow `(i, j) = (1, 0)`, with reverse flow `(0, 1)`
(smp.py line 154). -/
def Flow.i : Flow → Nat
  | .source_to_target => 1
  | .target_to_source => 0

/-- Companion of `Flow.i` (smp.py line 154). -/
def Flow.j : Flow → Nat
  | .source_to_target => 0
  | .target_to_source => 1

/-- The two propagation directions handled by the engine (`'up'` / `'down'`). -/
inductive Dir
  | up
  | down
  deriving DecidableEq

/-- The string tag used to build derived argument names such as `up_index`. -/
def Dir.str : Dir → String
  | .up => "up"
  | .down => "down"

/-- A 2-D feature tensor of shape `[N, D]`: a list of `N` rows.  The engine's
default `node_dim = -2` addresses the first axis of such a tensor, so
`src.size(self.node_dim)` is the number of rows. -/
abbrev Tensor2 := List (List Int)

/-- An explicit-index adjacency: the `[2, E]` long tensor, column `k` holding
the pair `(row0[k], row1[k])`.  Representing columns as pairs captures the
source's invariants `index.dim() == 2` and `index.size(0) == 2`
(smp.py lines 103-104); `dtype == torch.long` with the non-negativity
required by `index_select` is captured by using `Nat` entries. -/
abbrev EdgeIdx := List (Nat × Nat)

/-- Row `d` of the `[2, E]` index tensor (`index[dim]`, smp.py line 141). -/
def EdgeIdx.row (e : EdgeIdx) (d : Nat) : List Nat :=
  if d = 0 then e.map Prod.fst else e.map Prod.snd

/-- A compressed sparse adjacency: the parts of a `torch_sparse.SparseTensor`
read by the engine (`storage.row()`, `storage.col()`, `storage.rowptr()`,
`storage.value()`, `sparse_size`). -/
structure SparseAdj where
  row : List Nat
  col : List Nat
  rowptr : List Nat
  value : Option (List Int)
  size0 : Nat
  size1 : Nat
  deriving DecidableEq

/-- A non-`None` adjacency object: `torch.Tensor` or `torch_sparse.SparseTensor`
(the only two representations `propagate` accepts, smp.py lines 101-128). -/
inductive Adj
  | tensor (e : EdgeIdx)
  | sparse (s : SparseAdj)
  deriving DecidableEq

/-- Whether the adjacency is the compressed sparse representation. -/
def Adj.isSparse : Adj → Bool
  | .tensor _ => false
  | .sparse _ => true

/-- The lazily resolved `[rows, cols]` size pair
(`the_size: List[Optional[int]]`, smp.py line 99). -/
structure Size2 where
  s0 : Option Nat
  s1 : Option Nat
  deriving DecidableEq

/-- Values stored in keyword-argument bags and collected dictionaries.
`empty` is the `inspect.Parameter.empty` sentinel used by `kwargs.get`;
`vNone` is Python `None`; `pair` stands for the tuple/list feature format
that `__collect__` rejects (smp.py lines 176-177). -/
inductive Val
  | vNone
  | empty
  | tens (t : Tensor2)
  | vecN (v : List Nat)
  | vecZ (v : List Int)
  | eidx (e : EdgeIdx)
  | sadj (s : SparseAdj)
  | sizeVal (s : Size2)
  | optNat (n : Option Nat)
  | pair (a b : Val)
  deriving DecidableEq

/-- Error taxonomy of the engine, named after spec section 7.  `sizeMismatch`
covers both the `assert` in `__check_input_together__` and the `ValueError`
of `__set_size__`; `invalidFlow` the `ValueError` for reverse flow over a
`SparseTensor`; `valueError` the remaining `ValueError`s of `__collect__` and
`__lift__`; `notImplemented` the `NotImplementedError` of the default fused
callables. -/
inductive Err
  | sizeMismatch
  | invalidFlow
  | invalidAdjacency
  | missingArgument
  | notImplemented
  | valueError
  deriving DecidableEq

/-- A Python dictionary from argument names to values, as an association list
where insertion prepends; the first hit of `dlookup` is the binding, so a
later insertion overwrites an earlier one exactly as a dict assignment does. -/
abbrev Dict := List (String × Val)

/-- The keyword-argument bag passed by the caller of `propagate`. -/
abbrev Bag := Dict

/-- Dictionary lookup: the first entry with the given key. -/
def dlookup (k : String) : Dict → Option Val
  | [] => none
  | (a, v) :: rest => if k = a then some v else dlookup k rest

/-- The read `kwargs.get(arg, Parameter.empty)` (smp.py lines 162, 167, 169):
the only operation the engine ever performs on the caller's bag.  It is
modelled as a state transition returning the bag so non-mutation is explicit
in the embedding. -/
def bagGet (n : String) (b : Bag) : Val × Bag :=
  ((dlookup n b).getD Val.empty, b)

/-- Python truthiness-based `a or b` on `Optional[int]` values
(smp.py lines 210-211): both `None` and `0` are falsy. -/
def pyOr (a b : Option Nat) : Option Nat :=
  if a = none ∨ a = some 0 then b else a

/-- The `torch.index_select` along `node_dim` used by `__lift__`: row `k` of
the result is row `idx[k]` of the source (an out-of-range index is a runtime
error in torch; theorems about `lift` assume in-range indices). -/
def indexSelect (src : Tensor2) (idx : List Nat) : Tensor2 :=
  idx.map (fun n => src.getD n [])

/-- `torch_scatter.gather_csr`: row `r` of the source is repeated once for
each position in the CSR segment `[rowptr[r], rowptr[r+1])`
(smp.py lines 145-147). -/
def gatherCSR (src : Tensor2) (rowptr : List Nat) : Tensor2 :=
  (List.range (rowptr.length - 1)).flatMap
    (fun r => List.replicate (rowptr.getD (r + 1) 0 - rowptr.getD r 0) (src.getD r []))

/-- `__set_size__` (smp.py lines 130-137): fill a still-unknown component of
the size pair from the tensor's `node_dim` extent, or fail with the
size-mismatch `ValueError` when it disagrees with the established size. -/
def setSize (size : Size2) (dim : Nat) (src : Tensor2) : Except Err Size2 :=
  let cur := if dim = 0 then size.s0 else size.s1
  match cur with
  | none =>
    .ok (if dim = 0 then ⟨some src.length, size.s1⟩ else ⟨size.s0, some src.length⟩)
  | some n => if n = src.length then .ok size else .error .sizeMismatch

/-- `__lift__` (smp.py lines 139-151): gather per-edge rows from a per-cell
feature tensor.  For the explicit index tensor this selects by row `dim` of
the index; for the sparse form, `dim == 1` expands by the row pointer and
`dim == 0` selects by the column index. -/
def lift (src : Tensor2) (a : Adj) (d : Nat) : Except Err Tensor2 :=
  match a with
  | .tensor e => .ok (indexSelect src (EdgeIdx.row e d))
  | .sparse s =>
    if d = 1 then .ok (gatherCSR src s.rowptr)
    else if d = 0 then .ok (indexSelect src s.col)
    else .error .valueError

/-- Python's `s.endswith(suf)` — the test `arg[-2:] in ['_i', '_j']` of
smp.py line 161 is suffix comparison (on a character-list view of the
string, which the kernel can evaluate). -/
def strEndsWith (s suf : String) : Bool := List.isSuffixOf suf.data s.data

/-- Python's `s.startswith(pre)` (smp.py lines 166, 168). -/
def strStartsWith (s pre : String) : Bool := List.isPrefixOf pre.data s.data

/-- Python's slice `s[n:]`. -/
def strDrop (s : String) (n : Nat) : String := String.mk (s.data.drop n)

/-- Python's slice `s[:-n]`. -/
def strDropRight (s : String) (n : Nat) : String :=
  String.mk (s.data.take (s.data.length - n))

/-- The direction-prefix test of the collect loop (smp.py lines 166-171):
for direction `up` an argument `up_x_j` resolves to base name `x`
(`arg[3:-2]`), for `down` the prefix `down_` is stripped (`arg[5:-2]`);
any other suffixed argument is skipped by `continue`. -/
def baseName (dir : Dir) (arg : String) : Option String :=
  match dir with
  | .up =>
    if strStartsWith arg "up_" then some (strDropRight (strDrop arg 3) 2)
    else none
  | .down =>
    if strStartsWith arg "down_" then some (strDropRight (strDrop arg 5) 2)
    else none

/-- The `for arg in args` loop of `__collect__` (smp.py lines 158-186),
threading the collected dictionary, the size pair mutated by `__set_size__`,
and the caller's bag. -/
def collectLoop (i j : Nat) (dir : Dir) (index : Option Adj) :
    List String → Dict → Size2 → Bag → Except Err (Dict × Size2) × Bag
  | [], out, size, bag => (.ok (out, size), bag)
  | arg :: rest, out, size, bag =>
    if !(strEndsWith arg "_i" || strEndsWith arg "_j") then
      let p := bagGet arg bag
      collectLoop i j dir index rest ((arg, p.1) :: out) size p.2
    else
      match index with
      | none => collectLoop i j dir index rest out size bag
      | some a =>
        match baseName dir arg with
        | none => collectLoop i j dir index rest out size bag
        | some base =>
          let p := bagGet base bag
          match p.1 with
          | .pair _ _ => (.error .valueError, p.2)
          | .tens t =>
            match setSize size (if strEndsWith arg "_j" then 0 else 1) t with
            | .error e => (.error e, p.2)
            | .ok sz1 =>
              match lift t a (if strEndsWith arg "_j" then j else i) with
              | .error e => (.error e, p.2)
              | .ok t2 => collectLoop i j dir index rest ((arg, .tens t2) :: out) sz1 p.2
          | v => collectLoop i j dir index rest ((arg, v) :: out) size p.2

/-- The optional per-edge value tensor of the sparse storage, or Python
`None` when absent. -/
def optValVec (v : Option (List Int)) : Val :=
  match v with
  | some t => .vecZ t
  | none => .vNone

/-- The tail of `__collect__` after the argument loop (smp.py lines 188-212):
auto-population of the derived default values.  Note line 207: after the
per-representation block, `out[f'{direction}_index']` is overwritten with the
current value of `out[f'{direction}_index_i']`. -/
def collectPost (i j : Nat) (dir : Dir) (index : Option Adj) (out : Dict)
    (size : Size2) : Dict :=
  let d := dir.str
  let out1 : Dict :=
    match index with
    | some (.tensor e) =>
      (d ++ "_index_j", .vecN (EdgeIdx.row e j)) ::
      (d ++ "_index_i", .vecN (EdgeIdx.row e i)) ::
      (d ++ "_index", .eidx e) ::
      ("ptr", .vNone) ::
      ("adj_t", .vNone) :: out
    | some (.sparse s) =>
      (d ++ "_type", optValVec s.value) ::
      (d ++ "_attr", optValVec s.value) ::
      (d ++ "_weight", optValVec s.value) ::
      (d ++ "_ptr", .vecN s.rowptr) ::
      (d ++ "_index_j", .vecN s.col) ::
      (d ++ "_index_i", .vecN s.row) ::
      (d ++ "_adj_t", .sadj s) ::
      ("edge_index", .vNone) :: out
    | none => out
  let out2 : Dict :=
    match index with
    | some _ => (d ++ "_index", (dlookup (d ++ "_index_i") out1).getD .vNone) :: out1
    | none => out1
  (d ++ "_dim_size", .optNat (pyOr size.s1 size.s0)) ::
  (d ++ "_size_j", .optNat (pyOr size.s0 size.s1)) ::
  (d ++ "_size_i", .optNat (pyOr size.s1 size.s0)) ::
  (d ++ "_size", .sizeVal size) :: out2

/-- `__collect__` (smp.py lines 153-214): run the argument loop, then append
the auto-populated derived values.  Returns the collected dictionary together
with the size pair as mutated by `__set_size__`, and threads the caller's
bag as state. -/
def collect (flow : Flow) (args : List String) (index : Option Adj)
    (size : Size2) (dir : Dir) (bag : Bag) : Except Err (Dict × Size2) × Bag :=
  match collectLoop flow.i flow.j dir index args [] size bag with
  | (.error e, bag1) => (.error e, bag1)
  | (.ok (out, sz), bag1) => (.ok (collectPost flow.i flow.j dir index out sz, sz), bag1)

/-- Modelled from the spec: `SimplicialInspector.distribute` — the file
`mp/smp_inspector.py` is not among the sources, so the inspector's argument
distribution is taken from spec section 4.1: "given a superset mapping of
available named values, select exactly the subset (and order) the target
callable declares, substituting declared defaults for missing optional
names; fails with a MissingArgument error if a required name is absent and
has no default".  A value equal to the `Parameter.empty` sentinel counts as
absent. -/
def distribute (params : List (String × Option Val)) (d : Dict) :
    Except Err (List Val) :=
  match params with
  | [] => .ok []
  | (n, dflt) :: rest =>
    let v := (dlookup n d).getD Val.empty
    let v1 : Except Err Val :=
      match v with
      | .empty =>
        match dflt with
        | some dv => .ok dv
        | none => .error .missingArgument
      | w => .ok w
    match v1 with
    | .error e => .error e
    | .ok w =>
      match distribute rest d with
      | .error e => .error e
      | .ok ws => .ok (w :: ws)

/-- Parameters of the default `message_up(self, up_x_j, up_attr)`
(smp.py line 278); both are required.  (The inspector records declared
parameter names and defaults; the signatures themselves are in smp.py.) -/
def messageUpParams : List (String × Option Val) :=
  [("up_x_j", none), ("up_attr", none)]

/-- Parameters of the default `message_down(self, down_x_j, down_attr)`
(smp.py line 290). -/
def messageDownParams : List (String × Option Val) :=
  [("down_x_j", none), ("down_attr", none)]

/-- Parameters of the default
`aggregate_up(self, inputs, up_index, up_ptr=None, up_dim_size=None)`
(smp.py lines 302-304) after `pop_first` removes the positional `inputs`. -/
def aggregateUpParams : List (String × Option Val) :=
  [("up_index", none), ("up_ptr", some .vNone), ("up_dim_size", some .vNone)]

/-- Parameters of the default `aggregate_down` (smp.py lines 322-324) after
`pop_first` removes the positional `inputs`. -/
def aggregateDownParams : List (String × Option Val) :=
  [("down_index", none), ("down_ptr", some .vNone), ("down_dim_size", some .vNone)]

/-- Parameters of `message_and_aggregate_up(self, up_adj_t)` (smp.py line
342) after `pop_first` removes the positional adjacency: none are left, so
the fused callable receives only the raw adjacency object. -/
def fusedParams : List (String × Option Val) := []

/-- Parameters of `update(self, up_inputs, down_inputs, x)` (smp.py lines
362-363) after `pop_first_two` removes the two positional results. -/
def updateParams : List (String × Option Val) := [("x", none)]

/-- `self.__user_args__` (smp.py lines 77-79): parameter names of the
message and aggregate callables minus `special_args` (none of the
direction-prefixed names is special, so all ten survive). -/
def userArgs : List String :=
  ["up_x_j", "up_attr", "down_x_j", "down_attr",
   "up_index", "up_ptr", "up_dim_size",
   "down_index", "down_ptr", "down_dim_size"]

/-- `self.__fused_user_args__` (smp.py lines 80-82): empty, since the only
declared parameter of each fused callable is popped as positional. -/
def fusedUserArgs : List String := []

/-- `self.__update_user_args__` (smp.py lines 83-84). -/
def updateUserArgs : List String := ["x"]

/-- The reductions accepted for `aggr_up` / `aggr_down` (smp.py line 54). -/
inductive Aggr
  | add
  | mean
  | max
  deriving DecidableEq

/-- A zero row of the given feature width. -/
def zeroRow (w : Nat) : List Int := List.replicate w 0

/-- Elementwise sum of two rows (torch `+` restricted to equal shapes, the
only case the engine's defaults produce). -/
def rowAdd (a b : List Int) : List Int := List.zipWith (· + ·) a b

/-- Elementwise maximum of two rows. -/
def rowMax (a b : List Int) : List Int := List.zipWith max a b

/-- Reduce a list of equal-width rows with the chosen reduction.  An empty
group yields the zero row, matching the zero initialization of
`torch_scatter.scatter` output (the fill convention for `max` is the
reduction primitive's; no claim depends on it). -/
def reduceRows (red : Aggr) (w : Nat) (rows : List (List Int)) : List Int :=
  match red with
  | .add => rows.foldl rowAdd (zeroRow w)
  | .mean =>
    let s := rows.foldl rowAdd (zeroRow w)
    let c := rows.length
    if c = 0 then zeroRow w else s.map (fun z => z / (c : Int))
  | .max =>
    match rows with
    | [] => zeroRow w
    | r0 :: rest => rest.foldl rowMax r0

/-- `torch_scatter.scatter` along `node_dim` (smp.py lines 319-320): row `r`
of the result reduces the input rows whose index value is `r`; the number of
output rows is `dim_size`, or `index.max() + 1` when unspecified. -/
def scatterRows (red : Aggr) (t : Tensor2) (idx : List Nat)
    (dimSize : Option Nat) : Tensor2 :=
  let n :=
    match dimSize with
    | some n => n
    | none => if idx.isEmpty then 0 else (idx.foldl Nat.max 0) + 1
  let w := (t.getD 0 []).length
  (List.range n).map (fun r =>
    reduceRows red w ((List.zip idx t).filterMap
      (fun p => if p.1 = r then some p.2 else none)))

/-- `torch_scatter.segment_csr` (smp.py lines 315-317): segment `r` of the
result reduces the contiguous input rows `[ptr[r], ptr[r+1])`. -/
def segmentCSR (red : Aggr) (t : Tensor2) (ptr : List Nat) : Tensor2 :=
  let w := (t.getD 0 []).length
  (List.range (ptr.length - 1)).map (fun r =>
    reduceRows red w ((List.range (ptr.getD (r + 1) 0 - ptr.getD r 0)).map
      (fun k => t.getD (ptr.getD r 0 + k) [])))

/-- Body of the default message callables (smp.py lines 278-300): return the
lifted `_j` feature tensor, the first distributed argument. -/
def messageBody (vs : List Val) : Except Err Val :=
  match vs with
  | v :: _ => .ok v
  | [] => .error .missingArgument

/-- Body of the default aggregate callables (smp.py lines 302-340), applied
to the message output and the distributed `[index, ptr, dim_size]` values:
`segment_csr` when a row pointer is present, otherwise `scatter`.  A
non-tensor operand is a runtime `ValueError` in torch. -/
def aggregateBody (red : Aggr) (msg : Val) (vs : List Val) : Except Err Val :=
  match vs with
  | [idxV, ptrV, dsV] =>
    match ptrV with
    | .vNone =>
      match msg, idxV, dsV with
      | .tens t, .vecN idx, .optNat ds => .ok (.tens (scatterRows red t idx ds))
      | _, _, _ => .error .valueError
    | .vecN p =>
      match msg with
      | .tens t => .ok (.tens (segmentCSR red t p))
      | _ => .error .valueError
    | _ => .error .valueError
  | _ => .error .missingArgument

/-- Body of the default fused callables (smp.py lines 342-360): they raise
`NotImplementedError`. -/
def fusedBody (_raw : Adj) (_vs : List Val) : Except Err Val :=
  .error .notImplemented

/-- Elementwise sum of two tensors (torch `+` on equal shapes). -/
def tAdd (a b : Tensor2) : Tensor2 := List.zipWith rowAdd a b

/-- The default `update` (smp.py lines 362-377): return `x` when both
directional results are absent, the present one when exactly one is, and
their elementwise sum when both are (a non-tensor operand of `+` is a
runtime error in torch, modelled as `valueError`). -/
def update (upInputs downInputs : Option Val) (x : Val) : Except Err Val :=
  match upInputs, downInputs with
  | none, none => .ok x
  | none, some r => .ok r
  | some r, none => .ok r
  | some a, some b =>
    match a, b with
    | .tens ta, .tens tb => .ok (.tens (tAdd ta tb))
    | _, _ => .error .valueError

/-- Construction-time configuration of a `ChainMessagePassing` instance:
the flow, the two reductions, and whether the fused callables are
implemented (`self.fuse_up` / `self.fuse_down`, smp.py lines 86-88).  The
pluggable callables themselves are the class defaults of smp.py. -/
structure Chain where
  flow : Flow
  fuse_up : Bool
  fuse_down : Bool
  aggr_up : Aggr
  aggr_down : Aggr

/-- The fused-path flag for a direction. -/
def Chain.fuse (c : Chain) : Dir → Bool
  | .up => c.fuse_up
  | .down => c.fuse_down

/-- The reduction for a direction. -/
def Chain.aggr (c : Chain) : Dir → Aggr
  | .up => c.aggr_up
  | .down => c.aggr_down

/-- The message parameter list for a direction. -/
def msgParams : Dir → List (String × Option Val)
  | .up => messageUpParams
  | .down => messageDownParams

/-- The aggregate parameter list for a direction. -/
def aggrParams : Dir → List (String × Option Val)
  | .up => aggregateUpParams
  | .down => aggregateDownParams

/-- A `ChainMessagePassing()` with all defaults: forward flow, `add`
reductions, fused callables not overridden. -/
def defaultChain : Chain :=
  Chain.mk Flow.source_to_target false false Aggr.add Aggr.add

/-- A `ChainMessagePassing(flow="target_to_source")`. -/
def reverseChain : Chain :=
  Chain.mk Flow.target_to_source false false Aggr.add Aggr.add

/-- Callable invocations observed during a dispatch: the message callable,
the aggregate callable, or the fused callable with the raw adjacency object
it is handed. -/
inductive Event
  | msg (d : Dir)
  | aggr (d : Dir)
  | fused (d : Dir) (raw : Adj)
  deriving DecidableEq

/-- `__message_and_aggregate__` (smp.py lines 216-247): the fused path when
the adjacency is a `SparseTensor` and the direction's fused callable is
implemented, otherwise the separate message-then-aggregate path.  Besides
the result and the (possibly filled) size pair, it returns the list of
callable invocations and threads the caller's bag. -/
def messageAndAggregate (c : Chain) (index : Adj) (dir : Dir) (size : Size2)
    (bag : Bag) : Except Err (Val × Size2) × List Event × Bag :=
  if c.fuse dir && index.isSparse then
    match collect c.flow fusedUserArgs (some index) size dir bag with
    | (.error e, bag1) => (.error e, [], bag1)
    | (.ok (out, sz), bag1) =>
      match distribute fusedParams out with
      | .error e => (.error e, [], bag1)
      | .ok vs =>
        match fusedBody index vs with
        | .error e => (.error e, [.fused dir index], bag1)
        | .ok v => (.ok (v, sz), [.fused dir index], bag1)
  else
    match collect c.flow userArgs (some index) size dir bag with
    | (.error e, bag1) => (.error e, [], bag1)
    | (.ok (out, sz), bag1) =>
      match distribute (msgParams dir) out with
      | .error e => (.error e, [], bag1)
      | .ok vs =>
        match messageBody vs with
        | .error e => (.error e, [.msg dir], bag1)
        | .ok m =>
          match distribute (aggrParams dir) out with
          | .error e => (.error e, [.msg dir], bag1)
          | .ok avs =>
            match aggregateBody (c.aggr dir) m avs with
            | .error e => (.error e, [.msg dir, .aggr dir], bag1)
            | .ok v => (.ok (v, sz), [.msg dir, .aggr dir], bag1)

/-- `__check_input_separately__` (smp.py lines 97-128): resolve the declared
size of one adjacency.  An explicit index tensor copies the declared pair;
a sparse adjacency rejects reverse flow and reads
`[sparse_size(1), sparse_size(0)]`; `None` yields a fully unknown pair. -/
def checkInputSeparately (flow : Flow) (index : Option Adj)
    (size : Option (Option Nat × Option Nat)) : Except Err Size2 :=
  match index with
  | some (.tensor _) =>
    match size with
    | some (a, b) => .ok ⟨a, b⟩
    | none => .ok ⟨none, none⟩
  | some (.sparse s) =>
    if flow = .target_to_source then .error .invalidFlow
    else .ok ⟨some s.size1, some s.size0⟩
  | none => .ok ⟨none, none⟩

/-- `__check_input_together__` (smp.py lines 90-95): when both adjacencies
are present, assert the two resolved size pairs agree componentwise (the
size lists returned by `__check_input_separately__` are never `None`, so
the remaining guards of line 93 always hold).  `None == None` is `True` in
Python, so unknown components compare equal. -/
def checkInputTogether (up down : Option Adj) (su sd : Size2) :
    Except Err Unit :=
  if up.isSome && down.isSome then
    if su.s0 = sd.s0 then
      if su.s1 = sd.s1 then .ok () else .error .sizeMismatch
    else .error .sizeMismatch
  else .ok ()

/-- The validation phase of `propagate` (smp.py lines 257-259): resolve both
declared sizes and check them against each other. -/
def propagateChecks (c : Chain) (upIndex downIndex : Option Adj)
    (upSize downSize : Option (Option Nat × Option Nat)) :
    Except Err (Size2 × Size2) :=
  match checkInputSeparately c.flow upIndex upSize with
  | .error e => .error e
  | .ok usz =>
    match checkInputSeparately c.flow downIndex downSize with
    | .error e => .error e
    | .ok dsz =>
      match checkInputTogether upIndex downIndex usz dsz with
      | .error e => .error e
      | .ok _ => .ok (usz, dsz)

/-- The dispatch half of one direction of `propagate` (smp.py lines
261-266): absent adjacency yields no output; otherwise dispatch through
`__message_and_aggregate__`. -/
def dispatchDir (c : Chain) (index : Option Adj) (dir : Dir) (size : Size2)
    (bag : Bag) : Except Err (Option Val × Size2) × List Event × Bag :=
  match index with
  | none => (.ok (none, size), [], bag)
  | some a =>
    match messageAndAggregate c a dir size bag with
    | (.error e, ev, bag1) => (.error e, ev, bag1)
    | (.ok (v, sz1), ev, bag1) => (.ok (some v, sz1), ev, bag1)

/-- The body of `propagate` after validation (smp.py lines 261-276):
dispatch each present direction, collect the update arguments over both
directions (the later, `down`, collection overriding the `up` one on a name
collision, as `dict.update` does), and finish with the default `update`. -/
def propagateCore (c : Chain) (upIndex downIndex : Option Adj)
    (usz dsz : Size2) (bag : Bag) : Except Err Val × List Event × Bag :=
  match dispatchDir c upIndex .up usz bag with
  | (.error e, ev, bag1) => (.error e, ev, bag1)
  | (.ok (upOut, usz1), ev1, bag1) =>
    match dispatchDir c downIndex .down dsz bag1 with
    | (.error e, ev2, bag2) => (.error e, ev1 ++ ev2, bag2)
    | (.ok (downOut, dsz1), ev2, bag2) =>
      match collect c.flow updateUserArgs upIndex usz1 .up bag2 with
      | (.error e, bag3) => (.error e, ev1 ++ ev2, bag3)
      | (.ok (upDict, _), bag3) =>
        match collect c.flow updateUserArgs downIndex dsz1 .down bag3 with
        | (.error e, bag4) => (.error e, ev1 ++ ev2, bag4)
        | (.ok (downDict, _), bag4) =>
          match distribute updateParams (downDict ++ upDict) with
          | .error e => (.error e, ev1 ++ ev2, bag4)
          | .ok vs =>
            match vs with
            | [xv] =>
              match update upOut downOut xv with
              | .error e => (.error e, ev1 ++ ev2, bag4)
              | .ok v => (.ok v, ev1 ++ ev2, bag4)
            | _ => (.error .missingArgument, ev1 ++ ev2, bag4)

/-- `propagate` (smp.py lines 249-276): validate the inputs, then run the
dispatch-and-update body.  Returns the result, the callable invocations of
both dispatches, and the caller's bag threaded as state. -/
def propagate (c : Chain) (upIndex downIndex : Option Adj)
    (upSize downSize : Option (Option Nat × Option Nat)) (bag : Bag) :
    Except Err Val × List Event × Bag :=
  match propagateChecks c upIndex downIndex upSize downSize with
  | .error e => (.error e, [], bag)
  | .ok (usz, dsz) => propagateCore c upIndex downIndex usz dsz bag

/-- The dictionary of a successful collect result, probed at a key. -/
def okLookup (r : Except Err (Dict × Size2)) (k : String) : Option Val :=
  match r with
  | .ok (d, _) => dlookup k d
  | .error _ => none

/-- Whether a collect result is a success. -/
def isOkD : Except Err (Dict × Size2) → Bool
  | .ok _ => true
  | .error _ => false

/-- The resolved size pair of a successful collect result. -/
def okSize : Except Err (Dict × Size2) → Size2
  | .ok (_, s) => s
  | .error _ => ⟨none, none⟩

/-- The per-endpoint `_i` index vector that `__collect__` auto-populates:
row `flow.i` of an explicit index tensor, `storage.row()` of a sparse
adjacency (smp.py lines 194, 199). -/
def indexIVec (flow : Flow) (a : Adj) : List Nat :=
  match a with
  | .tensor e => EdgeIdx.row e flow.i
  | .sparse s => s.row

/-- A requested argument name that the collect loop is guaranteed to bind:
one without an endpoint suffix, or — when the adjacency is present — one
whose direction prefix matches the current direction. -/
def goodArg (dir : Dir) (index : Option Adj) (arg : String) : Prop :=
  (strEndsWith arg "_i" || strEndsWith arg "_j") = false ∨
    (index ≠ none ∧ (baseName dir arg).isSome = true)

/-! ### Helper lemmas -/

theorem dlookup_isSome_cons {k a : String} {v : Val} {l : Dict}
    (h : (dlookup k l).isSome = true) :
    (dlookup k ((a, v) :: l)).isSome = true := by
  by_cases hk : k = a <;> simp [dlookup, hk, h]

theorem rowAdd_getD (a : List Int) (l : Nat) :
    ∀ b : List Int, l < a.length → a.length = b.length →
      (rowAdd a b).getD l 0 = a.getD l 0 + b.getD l 0 := by
  induction a generalizing l with
  | nil => intro b hl _; exact absurd hl (by simp)
  | cons x xs ih =>
    intro b hl hlen
    cases b with
    | nil => exact absurd hlen (by simp)
    | cons y ys =>
      cases l with
      | zero => simp [rowAdd]
      | succ m =>
        have := ih m ys (by simpa using hl) (by simpa using hlen)
        simpa [rowAdd] using this

theorem tAdd_getD (u : Tensor2) (k : Nat) :
    ∀ d : Tensor2, k < u.length → u.length = d.length →
      (tAdd u d).getD k [] = rowAdd (u.getD k []) (d.getD k []) := by
  induction u generalizing k with
  | nil => intro d hk _; exact absurd hk (by simp)
  | cons r rs ih =>
    intro d hk hlen
    cases d with
    | nil => exact absurd hlen (by simp)
    | cons q qs =>
      cases k with
      | zero => simp [tAdd]
      | succ m =>
        have := ih m qs (by simpa using hk) (by simpa using hlen)
        simpa [tAdd] using this

theorem indexSelect_getD (x : Tensor2) (idx : List Nat) (k : Nat)
    (hk : k < idx.length) :
    (indexSelect x idx).getD k [] = x.getD (idx.getD k 0) [] := by
  induction idx generalizing k with
  | nil => exact absurd hk (by simp)
  | cons n ns ih =>
    cases k with
    | zero => simp [indexSelect]
    | succ m =>
      have := ih m (by simpa using hk)
      simpa [indexSelect] using this

theorem row_one_getD (e : EdgeIdx) (k : Nat) (hk : k < e.length) :
    (EdgeIdx.row e 1).getD k 0 = (e.getD k (0, 0)).2 := by
  induction e generalizing k with
  | nil => exact absurd hk (by simp)
  | cons p ps ih =>
    cases k with
    | zero => simp [EdgeIdx.row]
    | succ m =>
      have := ih m (by simpa using hk)
      simpa [EdgeIdx.row] using this

theorem getD_mem {α : Type} (l : List α) (n : Nat) (d : α) (h : n < l.length) :
    l.getD n d ∈ l := by
  induction l generalizing n with
  | nil => exact absurd h (by simp)
  | cons x xs ih =>
    cases n with
    | zero => simp
    | succ m => exact List.mem_cons_of_mem _ (ih m (by simpa using h))

/-! ### Bag preservation: the engine only reads the keyword-argument bag -/

theorem collectLoop_bag (i j : Nat) (dir : Dir) (index : Option Adj) :
    ∀ (args : List String) (out : Dict) (size : Size2) (bag : Bag),
      (collectLoop i j dir index args out size bag).2 = bag := by
  intro args
  induction args with
  | nil => intro out size bag; rfl
  | cons arg rest ih =>
    intro out size bag
    simp only [collectLoop, bagGet]
    repeat' split
    all_goals first | rfl | exact ih _ _ _

theorem collect_bag (flow : Flow) (args : List String) (index : Option Adj)
    (size : Size2) (dir : Dir) (bag : Bag) :
    (collect flow args index size dir bag).2 = bag := by
  have h := collectLoop_bag flow.i flow.j dir index args [] size bag
  simp only [collect]
  repeat' split
  all_goals simp_all

theorem messageAndAggregate_bag (c : Chain) (index : Adj) (dir : Dir)
    (size : Size2) (bag : Bag) :
    (messageAndAggregate c index dir size bag).2.2 = bag := by
  have hf := collect_bag c.flow fusedUserArgs (some index) size dir bag
  have hu := collect_bag c.flow userArgs (some index) size dir bag
  simp only [messageAndAggregate]
  repeat' split
  all_goals simp_all

theorem dispatchDir_bag (c : Chain) (index : Option Adj) (dir : Dir)
    (size : Size2) (bag : Bag) :
    (dispatchDir c index dir size bag).2.2 = bag := by
  rcases index with _ | a
  · rfl
  · have h := messageAndAggregate_bag c a dir size bag
    simp only [dispatchDir]
    repeat' split
    all_goals simp_all

theorem propagateCore_bag (c : Chain) (ui di : Option Adj) (usz dsz : Size2)
    (bag : Bag) : (propagateCore c ui di usz dsz bag).2.2 = bag := by
  simp only [propagateCore]
  split
  · rename_i e ev bag1 heq
    have h := dispatchDir_bag c ui .up usz bag
    rw [heq] at h
    exact h
  · rename_i upOut usz1 ev1 bag1 heq1
    have h0 := dispatchDir_bag c ui .up usz bag
    rw [heq1] at h0
    have hb1 : bag1 = bag := h0
    split
    · rename_i e ev2 bag2 heq2
      have h := dispatchDir_bag c di .down dsz bag1
      rw [heq2] at h
      exact Eq.trans h hb1
    · rename_i downOut dsz1 ev2 bag2 heq2
      have h := dispatchDir_bag c di .down dsz bag1
      rw [heq2] at h
      have hb2 : bag2 = bag := Eq.trans h hb1
      split
      · rename_i e bag3 heq3
        have h3 := collect_bag c.flow updateUserArgs ui usz1 .up bag2
        rw [heq3] at h3
        exact Eq.trans h3 hb2
      · rename_i upDict szA bag3 heq3
        have h3 := collect_bag c.flow updateUserArgs ui usz1 .up bag2
        rw [heq3] at h3
        have hb3 : bag3 = bag := Eq.trans h3 hb2
        split
        · rename_i e bag4 heq4
          have h4 := collect_bag c.flow updateUserArgs di dsz1 .down bag3
          rw [heq4] at h4
          exact Eq.trans h4 hb3
        · rename_i downDict szB bag4 heq4
          have h4 := collect_bag c.flow updateUserArgs di dsz1 .down bag3
          rw [heq4] at h4
          have hb4 : bag4 = bag := Eq.trans h4 hb3
          repeat' split
          all_goals exact hb4

/-! ### The claims -/

/-- Claim C8: `propagate` never mutates the caller's keyword-argument bag
(and hence none of the feature tensors it holds): the bag component threaded
through the whole run — every access to it being the read `kwargs.get` —
comes back unchanged, for any configuration and any inputs. -/
theorem claim_C8 (c : Chain) (ui di : Option Adj)
    (us ds : Option (Option Nat × Option Nat)) (bag : Bag) :
    (propagate c ui di us ds bag).2.2 = bag := by
  simp only [propagate]
  repeat' split
  all_goals first
    | rfl
    | exact propagateCore_bag c ui di _ _ bag

/-- Claim C3: the default `update` returns `x` unchanged when both
directional results are absent, returns the present result when exactly one
is, and returns the elementwise sum when both are tensors of equal shape. -/
theorem claim_C3 (x r : Val) (u d : Tensor2)
    (hlen : u.length = d.length)
    (hrow : ∀ k, k < u.length → (u.getD k []).length = (d.getD k []).length) :
    update none none x = .ok x ∧
    update (some r) none x = .ok r ∧
    update none (some r) x = .ok r ∧
    update (some (.tens u)) (some (.tens d)) x = .ok (.tens (tAdd u d)) ∧
    (∀ k l, k < u.length → l < (u.getD k []).length →
      ((tAdd u d).getD k []).getD l 0 =
        (u.getD k []).getD l 0 + (d.getD k []).getD l 0) := by
  refine ⟨rfl, rfl, rfl, rfl, ?_⟩
  intro k l hk hl
  rw [tAdd_getD u k d hk hlen]
  exact rowAdd_getD (u.getD k []) l (d.getD k []) hl (hrow k hk)

/-- Witness for C3 at the spec's literal example `up=[1,2], down=[3,4]`. -/
theorem claim_C3_witness :
    update (some (.tens [[(1 : Int), 2]])) (some (.tens [[3, 4]]))
        (.tens [[0]]) = .ok (.tens (tAdd [[1, 2]] [[3, 4]])) ∧
    tAdd [[(1 : Int), 2]] [[3, 4]] = [[4, 6]] :=
  ⟨(claim_C3 (.tens [[0]]) (.tens [[0]]) [[1, 2]] [[3, 4]] rfl
      (by
        intro k hk
        simp only [List.length_singleton, Nat.lt_one_iff] at hk
        subst hk
        rfl)).2.2.2.1,
   by decide⟩

/-- Claim C7: reverse flow over a compressed sparse adjacency fails input
validation with `InvalidFlow` — `propagate` returns it with no callable
invoked, whichever slot holds the sparse adjacency — while forward-flow
validation accepts the same adjacency. -/
theorem claim_C7 (s : SparseAdj) (di : Option Adj)
    (usz dsz sz2 : Option (Option Nat × Option Nat)) (bag : Bag) :
    propagate reverseChain (some (.sparse s)) di usz dsz bag =
      (.error .invalidFlow, [], bag) ∧
    propagate reverseChain none (some (.sparse s)) usz dsz bag =
      (.error .invalidFlow, [], bag) ∧
    checkInputSeparately .source_to_target (some (.sparse s)) sz2 =
      .ok ⟨some s.size1, some s.size0⟩ :=
  ⟨rfl, rfl, rfl⟩

/-- Claim C1: the dispatch of `__message_and_aggregate__` invokes the fused
callable — handing it the raw adjacency object — exactly when the
direction's fused callable is implemented and the adjacency is compressed
sparse; in every other case no fused invocation happens and the invocations
are the message callable followed by the aggregate callable (truncated only
when an error aborts the dispatch first). -/
theorem claim_C1 (c : Chain) (dir : Dir) (index : Adj) (size : Size2)
    (bag : Bag) :
    ((c.fuse dir && index.isSparse) = true →
      (messageAndAggregate c index dir size bag).2.1 = [.fused dir index]) ∧
    ((c.fuse dir && index.isSparse) = false →
      (∀ d raw, Event.fused d raw ∉ (messageAndAggregate c index dir size bag).2.1) ∧
      ((messageAndAggregate c index dir size bag).2.1 = [] ∨
       (messageAndAggregate c index dir size bag).2.1 = [.msg dir] ∨
       (messageAndAggregate c index dir size bag).2.1 = [.msg dir, .aggr dir])) := by
  constructor
  · intro h
    simp only [messageAndAggregate, h]
    rfl
  · intro h
    simp only [messageAndAggregate, h]
    constructor
    · intro d raw
      repeat' split
      all_goals simp_all
    · repeat' split
      all_goals simp_all

/-- Chain used by the C1 witness: fused path implemented for `up`. -/
def fusedUpChain : Chain := Chain.mk .source_to_target true false .add .add

/-- Sparse adjacency used by the C1 witness. -/
def wSparse : SparseAdj := SparseAdj.mk [0] [0] [0, 1] none 1 1

/-- Witness for C1: with the fused path implemented and a sparse adjacency,
the dispatch invokes exactly the fused callable on the raw adjacency. -/
theorem claim_C1_witness :
    (messageAndAggregate fusedUpChain (.sparse wSparse) .up ⟨none, none⟩
        []).2.1 = [.fused .up (.sparse wSparse)] :=
  (claim_C1 fusedUpChain .up (.sparse wSparse) ⟨none, none⟩ []).1 rfl

/-- Counterexample for C5: the collect step does not bind every requested
name — a `_j`-suffixed name carrying the other direction's prefix is skipped
by the loop's `continue` (smp.py line 171), so a successful collect for
direction `up` over the request `["down_x_j"]` returns a mapping with no
entry for it. -/
theorem claim_C5_counterexample :
    isOkD (collect .source_to_target ["down_x_j"] (some (.tensor [(0, 1)]))
        ⟨none, none⟩ .up []).1 = true ∧
    okLookup (collect .source_to_target ["down_x_j"] (some (.tensor [(0, 1)]))
        ⟨none, none⟩ .up []).1 "down_x_j" = none :=
  ⟨rfl, rfl⟩

/-- Counterexample for C6: for the explicit adjacency `[(0, 1)]` the
returned mapping binds `up_index` to the per-endpoint vector `[1]` — the
overwrite at smp.py line 207 — and not to the adjacency object itself. -/
theorem claim_C6_counterexample :
    okLookup (collect .source_to_target [] (some (.tensor [(0, 1)]))
        ⟨none, none⟩ .up []).1 "up_index" = some (.vecN [1]) ∧
    Val.vecN [1] ≠ Val.eidx [(0, 1)] :=
  ⟨rfl, by decide⟩

/-- Counterexample for C10: over the resolved size pair `[0, 5]` the rows
component `0` is known, yet `up_size_j` is bound to `5` — Python `0 or 5`
is `5` — contradicting the claim that `size_j` is bound to rows whenever
rows is known. -/
theorem claim_C10_counterexample :
    okLookup (collect .source_to_target [] none ⟨some 0, some 5⟩ .up []).1
      "up_size_j" = some (.optNat (some 5)) ∧
    (some 5 : Option Nat) ≠ some 0 :=
  ⟨rfl, by decide⟩

/-- Claim C2: under forward flow, collecting an `_i`-suffixed name over a
valid explicit-index adjacency binds it to the lift of the base feature
tensor by row 1 of the index tensor: the result has one row per edge, row
`k` being the feature row of the target endpoint `(e.getD k).2` — row 1 of
the index tensor at column `k` — and each row keeps the feature width. -/
theorem claim_C2 (x : Tensor2) (e : EdgeIdx) (N D : Nat)
    (hN : x.length = N) (hD : ∀ r ∈ x, r.length = D)
    (hvalid : ∀ p ∈ e, p.1 < N ∧ p.2 < N) :
    okLookup (collect .source_to_target ["up_x_i"] (some (.tensor e))
        ⟨none, none⟩ .up [("x", .tens x)]).1 "up_x_i" =
      some (.tens (indexSelect x (EdgeIdx.row e 1))) ∧
    (indexSelect x (EdgeIdx.row e 1)).length = e.length ∧
    (∀ k, k < e.length →
      (indexSelect x (EdgeIdx.row e 1)).getD k [] =
        x.getD ((e.getD k (0, 0)).2) []) ∧
    (∀ r ∈ indexSelect x (EdgeIdx.row e 1), r.length = D) := by
  refine ⟨rfl, ?_, ?_, ?_⟩
  · simp [indexSelect, EdgeIdx.row]
  · intro k hk
    have h1 : (EdgeIdx.row e 1).length = e.length := by simp [EdgeIdx.row]
    rw [indexSelect_getD x (EdgeIdx.row e 1) k (by rw [h1]; exact hk)]
    rw [row_one_getD e k hk]
  · intro r hr
    simp only [indexSelect, List.mem_map] at hr
    obtain ⟨n, hn, rfl⟩ := hr
    simp only [EdgeIdx.row, if_neg (by norm_num : ¬(1 : Nat) = 0),
      List.mem_map] at hn
    obtain ⟨p, hp, rfl⟩ := hn
    have hlt : p.2 < x.length := by rw [hN]; exact (hvalid p hp).2
    exact hD _ (getD_mem x p.2 [] hlt)

/-- Witness for C2 on a two-cell complex with one edge `(0, 1)`. -/
theorem claim_C2_witness :
    okLookup (collect .source_to_target ["up_x_i"] (some (.tensor [(0, 1)]))
        ⟨none, none⟩ .up [("x", .tens [[1], [2]])]).1 "up_x_i" =
      some (.tens (indexSelect [[1], [2]] (EdgeIdx.row [(0, 1)] 1))) :=
  (claim_C2 [[1], [2]] [(0, 1)] 2 1 rfl (by decide) (by decide)).1

/-- Claim C9: with both adjacencies absent and the default callables,
`propagate` returns exactly the tensor bound to `x` in the bag, invokes no
message, aggregate or fused callable (the invocation list is empty), and
leaves the bag unchanged. -/
theorem claim_C9 (bag : Bag) (X : Tensor2)
    (hx : dlookup "x" bag = some (.tens X)) :
    propagate defaultChain none none none none bag =
      (.ok (.tens X), [], bag) := by
  have hv : (dlookup "x" bag).getD Val.empty = Val.tens X := by rw [hx]; rfl
  have hcu : ∀ d : Dir,
      collect .source_to_target updateUserArgs none ⟨none, none⟩ d bag =
        (.ok (collectPost 1 0 d none
          [("x", (dlookup "x" bag).getD Val.empty)] ⟨none, none⟩,
          ⟨none, none⟩), bag) := by
    intro d
    rfl
  simp only [hv] at hcu
  have hchk : propagateChecks defaultChain none none none none =
      .ok (⟨none, none⟩, ⟨none, none⟩) := rfl
  simp only [propagate, hchk]
  simp only [propagateCore, dispatchDir, defaultChain]
  simp only [hcu]
  rfl

/-- Witness for C9 on the one-entry bag binding `x`. -/
theorem claim_C9_witness :
    propagate defaultChain none none none none [("x", Val.tens [[5]])] =
      (.ok (.tens [[5]]), [], [("x", Val.tens [[5]])]) :=
  claim_C9 [("x", Val.tens [[5]])] [[5]] rfl

/-- Claim C4: with both adjacencies in explicit-index form and fully known
declared sizes, the joint size check succeeds exactly when the two size
pairs are identical; `propagate` then raises no size-mismatch error (on the
empty bag it proceeds past validation and fails only on the missing message
argument), while any componentwise difference makes `propagate` return the
size-mismatch error for every bag. -/
theorem claim_C4 (eu ed : EdgeIdx) (a b c d : Nat) :
    (checkInputTogether (some (.tensor eu)) (some (.tensor ed))
        ⟨some a, some b⟩ ⟨some c, some d⟩ = .ok () ↔ (a = c ∧ b = d)) ∧
    ((a, b) = (c, d) →
      (propagate defaultChain (some (.tensor eu)) (some (.tensor ed))
          (some (some a, some b)) (some (some c, some d)) []).1 ≠
        .error .sizeMismatch) ∧
    ((a, b) ≠ (c, d) → ∀ bag,
      (propagate defaultChain (some (.tensor eu)) (some (.tensor ed))
          (some (some a, some b)) (some (some c, some d)) bag).1 =
        .error .sizeMismatch) := by
  refine ⟨?_, ?_, ?_⟩
  · simp only [checkInputTogether]
    split_ifs with h1 h2 <;> simp_all
  · intro heq
    injection heq with h1 h2
    subst h1
    subst h2
    have hck : checkInputTogether (some (.tensor eu)) (some (.tensor ed))
        ⟨some a, some b⟩ ⟨some a, some b⟩ = .ok () := by
      simp [checkInputTogether]
    have hchk : propagateChecks defaultChain (some (.tensor eu))
        (some (.tensor ed)) (some (some a, some b)) (some (some a, some b)) =
        .ok (⟨some a, some b⟩, ⟨some a, some b⟩) := by
      simp only [propagateChecks, checkInputSeparately, hck]
    have hrun : (propagate defaultChain (some (.tensor eu))
        (some (.tensor ed)) (some (some a, some b))
        (some (some a, some b)) []).1 = .error .missingArgument := by
      simp only [propagate, hchk]
      rfl
    rw [hrun]
    simp
  · intro hne bag
    have hck : checkInputTogether (some (.tensor eu)) (some (.tensor ed))
        ⟨some a, some b⟩ ⟨some c, some d⟩ = .error .sizeMismatch := by
      by_cases h1 : a = c
      · subst h1
        by_cases h2 : b = d
        · subst h2
          exact absurd rfl hne
        · simp [checkInputTogether, h2]
      · simp [checkInputTogether, h1]
    have hchk : propagateChecks defaultChain (some (.tensor eu))
        (some (.tensor ed)) (some (some a, some b)) (some (some c, some d)) =
        .error .sizeMismatch := by
      simp only [propagateChecks, checkInputSeparately, hck]
    simp [propagate, hchk]

/-- Witness for C4: identical declared sizes `[2, 2]` pass the size check
(failing later only on the missing message argument), while `[2, 2]` against
`[3, 2]` is rejected with the size-mismatch error. -/
theorem claim_C4_witness :
    (propagate defaultChain (some (.tensor [(0, 1)])) (some (.tensor [(0, 1)]))
        (some (some 2, some 2)) (some (some 2, some 2)) []).1 ≠
      .error .sizeMismatch ∧
    (propagate defaultChain (some (.tensor [(0, 1)])) (some (.tensor [(0, 1)]))
        (some (some 2, some 2)) (some (some 3, some 2)) []).1 =
      .error .sizeMismatch :=
  ⟨(claim_C4 [(0, 1)] [(0, 1)] 2 2 2 2).2.1 rfl,
   (claim_C4 [(0, 1)] [(0, 1)] 2 2 3 2).2.2 (by decide) []⟩

/-! ### Bindings guaranteed by the collect loop -/

theorem collectLoop_mono (i j : Nat) (dir : Dir) (index : Option Adj) :
    ∀ (args : List String) (out : Dict) (size : Size2) (bag : Bag)
      (out2 : Dict) (sz2 : Size2) (bag2 : Bag),
      collectLoop i j dir index args out size bag = (.ok (out2, sz2), bag2) →
      ∀ k, (dlookup k out).isSome = true → (dlookup k out2).isSome = true := by
  intro args
  induction args with
  | nil =>
    intro out size bag out2 sz2 bag2 heq k hk
    simp only [collectLoop] at heq
    cases heq
    exact hk
  | cons arg rest ih =>
    intro out size bag out2 sz2 bag2 heq k hk
    simp only [collectLoop] at heq
    split at heq
    · exact ih _ _ _ _ _ _ heq k (dlookup_isSome_cons hk)
    · split at heq
      · exact ih _ _ _ _ _ _ heq k hk
      · split at heq
        · exact ih _ _ _ _ _ _ heq k hk
        · split at heq
          · simp at heq
          · split at heq
            · simp at heq
            · split at heq
              · simp at heq
              · exact ih _ _ _ _ _ _ heq k (dlookup_isSome_cons hk)
          · exact ih _ _ _ _ _ _ heq k (dlookup_isSome_cons hk)

theorem collectLoop_good (i j : Nat) (dir : Dir) (index : Option Adj) :
    ∀ (args : List String) (out : Dict) (size : Size2) (bag : Bag)
      (out2 : Dict) (sz2 : Size2) (bag2 : Bag),
      collectLoop i j dir index args out size bag = (.ok (out2, sz2), bag2) →
      ∀ arg ∈ args, goodArg dir index arg →
        (dlookup arg out2).isSome = true := by
  intro args
  induction args with
  | nil =>
    intro out size bag out2 sz2 bag2 heq arg hmem
    exact absurd hmem (by simp)
  | cons a rest ih =>
    intro out size bag out2 sz2 bag2 heq arg hmem hgood
    rcases List.mem_cons.mp hmem with rfl | hmem2
    · simp only [collectLoop] at heq
      split at heq
      · exact collectLoop_mono i j dir index rest _ _ _ _ _ _ heq arg
          (by simp [dlookup])
      · rename_i hplain
        rcases hgood with hfalse | ⟨hidx, hbase⟩
        · exact absurd (by rw [hfalse]; rfl) hplain
        · split at heq
          · exact absurd rfl hidx
          · split at heq
            · rename_i hbn
              rw [hbn] at hbase
              simp at hbase
            · split at heq
              · simp at heq
              · split at heq
                · simp at heq
                · split at heq
                  · simp at heq
                  · exact collectLoop_mono i j dir _ rest _ _ _ _ _ _
                      heq arg (by simp [dlookup])
              · exact collectLoop_mono i j dir _ rest _ _ _ _ _ _ heq arg
                  (by simp [dlookup])
    · simp only [collectLoop] at heq
      split at heq
      · exact ih _ _ _ _ _ _ heq arg hmem2 hgood
      · split at heq
        · exact ih _ _ _ _ _ _ heq arg hmem2 hgood
        · split at heq
          · exact ih _ _ _ _ _ _ heq arg hmem2 hgood
          · split at heq
            · simp at heq
            · split at heq
              · simp at heq
              · split at heq
                · simp at heq
                · exact ih _ _ _ _ _ _ heq arg hmem2 hgood
            · exact ih _ _ _ _ _ _ heq arg hmem2 hgood

theorem collectPost_isSome (i j : Nat) (dir : Dir) (index : Option Adj)
    (out : Dict) (size : Size2) (k : String)
    (h : (dlookup k out).isSome = true) :
    (dlookup k (collectPost i j dir index out size)).isSome = true := by
  rcases index with _ | (e | s) <;>
    simp only [collectPost] <;>
    (repeat' apply dlookup_isSome_cons) <;>
    exact h

/-- Claim C5, amended: when the collect step succeeds, the returned mapping
contains an entry for every requested name that either carries no endpoint
suffix, or — with a non-`None` adjacency — carries the current direction's
prefix; a suffixed name for the other direction (or any suffixed name when
the adjacency is `None`) is skipped by the loop and gets no entry. -/
theorem claim_C5_amended (flow : Flow) (args : List String)
    (index : Option Adj) (size : Size2) (dir : Dir) (bag : Bag)
    (arg : String) (hmem : arg ∈ args) (hgood : goodArg dir index arg)
    (hok : isOkD (collect flow args index size dir bag).1 = true) :
    (okLookup (collect flow args index size dir bag).1 arg).isSome = true := by
  simp only [collect] at hok ⊢
  rcases hl : collectLoop flow.i flow.j dir index args [] size bag with ⟨r, bag1⟩
  rcases r with e | ⟨out, sz⟩
  · rw [hl] at hok
    simp [isOkD] at hok
  · simp only [okLookup]
    exact collectPost_isSome flow.i flow.j dir index out sz arg
      (collectLoop_good flow.i flow.j dir index args [] size bag out sz bag1
        hl arg hmem hgood)

/-- Witness for the amended C5: a plain requested name is bound. -/
theorem claim_C5_amended_witness :
    (okLookup (collect .source_to_target ["x"] none ⟨none, none⟩ .up
        [("x", .tens [[1]])]).1 "x").isSome = true :=
  claim_C5_amended .source_to_target ["x"] none ⟨none, none⟩ .up
    [("x", .tens [[1]])] "x" (by simp) (Or.inl rfl) rfl

/-- Claim C6, amended: for every non-`None` adjacency, a successful collect
binds `<direction>_index` to the per-endpoint `_i` index vector — row
`flow.i` of an explicit index tensor, `storage.row()` of a sparse one — by
the overwrite at smp.py line 207, so its binding coincides with that of
`<direction>_index_i` (not with the raw adjacency object, which remains
available as `<direction>_adj_t` in the sparse case). -/
theorem claim_C6_amended (flow : Flow) (args : List String) (a : Adj)
    (size : Size2) (dir : Dir) (bag : Bag)
    (hok : isOkD (collect flow args (some a) size dir bag).1 = true) :
    okLookup (collect flow args (some a) size dir bag).1
        (dir.str ++ "_index") = some (.vecN (indexIVec flow a)) ∧
    okLookup (collect flow args (some a) size dir bag).1
        (dir.str ++ "_index") =
      okLookup (collect flow args (some a) size dir bag).1
        (dir.str ++ "_index_i") := by
  simp only [collect] at hok ⊢
  rcases hl : collectLoop flow.i flow.j dir (some a) args [] size bag with
    ⟨r, bag1⟩
  rcases r with e | ⟨out, sz⟩
  · rw [hl] at hok
    simp [isOkD] at hok
  · cases dir <;> rcases a with e | s <;> cases flow <;> exact ⟨rfl, rfl⟩

/-- Witness for the amended C6 on the one-edge explicit adjacency. -/
theorem claim_C6_amended_witness :
    okLookup (collect .source_to_target [] (some (.tensor [(0, 1)]))
        ⟨none, none⟩ .up []).1 "up_index" =
      some (.vecN (indexIVec .source_to_target (.tensor [(0, 1)]))) :=
  (claim_C6_amended .source_to_target [] (.tensor [(0, 1)]) ⟨none, none⟩
    .up [] rfl).1

/-- Claim C10, amended: a successful collect binds `<direction>_size_i` to
cols when cols is known and nonzero and otherwise to rows, and
`<direction>_size_j` to rows when rows is known and nonzero and otherwise to
cols — Python's `or` treats a known size of `0` like an absent one
(`pyOr`) — where `[rows, cols]` is the size pair as resolved by the collect
step; `<direction>_dim_size` always coincides with `<direction>_size_i`. -/
theorem claim_C10_amended (flow : Flow) (args : List String)
    (index : Option Adj) (size : Size2) (dir : Dir) (bag : Bag)
    (hok : isOkD (collect flow args index size dir bag).1 = true) :
    okLookup (collect flow args index size dir bag).1 (dir.str ++ "_size_i") =
      some (.optNat (pyOr (okSize (collect flow args index size dir bag).1).s1
        (okSize (collect flow args index size dir bag).1).s0)) ∧
    okLookup (collect flow args index size dir bag).1 (dir.str ++ "_size_j") =
      some (.optNat (pyOr (okSize (collect flow args index size dir bag).1).s0
        (okSize (collect flow args index size dir bag).1).s1)) ∧
    okLookup (collect flow args index size dir bag).1
        (dir.str ++ "_dim_size") =
      okLookup (collect flow args index size dir bag).1
        (dir.str ++ "_size_i") := by
  simp only [collect] at hok ⊢
  rcases hl : collectLoop flow.i flow.j dir index args [] size bag with
    ⟨r, bag1⟩
  rcases r with e | ⟨out, sz⟩
  · rw [hl] at hok
    simp [isOkD] at hok
  · cases dir <;> exact ⟨rfl, rfl, rfl⟩

/-- Witness for the amended C10: with resolved sizes `[3, none]` the
reduction size falls back to the known rows value. -/
theorem claim_C10_amended_witness :
    okLookup (collect .source_to_target [] none ⟨some 3, none⟩ .up []).1
      "up_size_i" = some (.optNat (some 3)) :=
  (claim_C10_amended .source_to_target [] none ⟨some 3, none⟩ .up [] rfl).1

end SMP
